import Mathlib

/-!
Verification of the board-calibration and move-detection pipeline of
goboardsync (src/vision/detector.go) against its natural-language
specification.

Shallow-embedding conventions:
* Pixel coordinates are integers (Go int); a point is a pair of integers.
* Go float32/float64 quantities are embedded as exact rationals; decimal
  literals of the source (0.2, 1.6, ...) denote the corresponding exact
  rationals.
* The Go code compares Euclidean distances computed with math.Hypot.
  Hypot is strictly monotone in the squared distance, so every comparison
  of hypot values in the source is embedded as the same comparison of
  exact integer squared distances.  The one place a distance VALUE (not a
  comparison) is consumed, the confidence formula, takes the square root
  through an explicit parameter sqrtFn of the pipeline.
* OpenCV image operations (warp, in-range masks, contours, Hough
  transforms) are image processing over pixel data; their outcomes enter
  the embedding as oracle inputs (the Oracle structure and the line-
  position lists handed to the calibrator), and every theorem about the
  pipeline quantifies over those oracles.  All pure glue of the source
  (control flow, table lookups, parity logic, the nearest-intersection
  scan, confidence arithmetic, clustering, grid completion) is embedded
  directly.
-/

/-- A pixel point: x and y coordinate (Go image.Point). -/
abbrev Pt : Type := ℤ × ℤ

/-- Squared Euclidean distance between two points.  The source compares
math.Hypot values; hypot is strictly monotone in this quantity. -/
def dsq (p q : Pt) : ℤ := (p.1 - q.1) ^ 2 + (p.2 - q.2) ^ 2

/-- Error kinds of the pipeline (the Go code uses fmt.Errorf strings;
the spec names them UnsupportedResolution, InvalidGeometry,
GridReconstructionFailed, and the ROI-too-small failure of
VerifyMoveNumber). -/
inductive VErr where
  | unsupportedResolution
  | invalidGeometry
  | roiTooSmall
  | gridReconstructionFailed
  deriving DecidableEq, Repr

/-- BoardWarpSize (detector.go:27): edge length of the rectified square. -/
def boardWarpSize : ℤ := 1024

/-- Destination square corners of WarpBoard (detector.go:186-191). -/
def warpDst : List Pt := [(0, 0), (1024, 0), (1024, 1024), (0, 1024)]

/-- Result of a successful warp: the fixed output size and the square
corners onto which the four supplied corners are mapped by the
perspective transform (the mapping src i to dst i is the contract of
GetPerspectiveTransform). -/
structure Warp where
  size : ℤ
  dstCorners : List Pt
  deriving DecidableEq, Repr

/-- WarpBoard (detector.go:180-214): errors when the number of supplied
corners is not four, otherwise warps onto the fixed 1024-square. -/
def warpBoard (corners : List Pt) : Except VErr Warp :=
  if corners.length ≠ 4 then Except.error VErr.invalidGeometry
  else Except.ok ⟨boardWarpSize, warpDst⟩

/-- FixedBoardCorners (detector.go:33-40): the resolution-to-corners
table; a single registered resolution. -/
def fixedBoardCorners : List (String × List Pt) :=
  [("1200x2670", [(40, 536), (1160, 536), (1160, 1650), (40, 1650)])]

/-- Crop fractions per resolution (detector.go:44). -/
structure CropPercent where
  top : ℚ
  bottom : ℚ
  left : ℚ
  right : ℚ
  deriving DecidableEq, Repr

/-- FixedBoardCropPercent (detector.go:46-50): both registered entries
are all-zero (no cropping). -/
def fixedBoardCropPercent : List (String × CropPercent) :=
  [("1200x2670", ⟨0, 0, 0, 0⟩), ("1125x2436", ⟨0, 0, 0, 0⟩)]

/-- Resolution key string, fmt.Sprintf with width times height
(detector.go:1033). -/
def resKey (w h : ℤ) : String := toString w ++ "x" ++ toString h

/-- Dimensions of the warped image after the crop step of
DetectLastMoveCoord (detector.go:1064-1102).  Crop fractions are
nonnegative, so Go int truncation is the floor. -/
def cropDims (key : String) (warpW warpH : ℤ) : ℤ × ℤ :=
  let cp := (fixedBoardCropPercent.lookup key).getD ⟨0, 0, 0, 0⟩
  let leftPx := max 0 ⌊(boardWarpSize : ℚ) * cp.left⌋
  let topPx := max 0 ⌊(boardWarpSize : ℚ) * cp.top⌋
  let rightPx := min warpW (boardWarpSize - ⌊(boardWarpSize : ℚ) * cp.right⌋)
  let bottomPx := min warpH (boardWarpSize - ⌊(boardWarpSize : ℚ) * cp.bottom⌋)
  if rightPx ≤ leftPx ∨ bottomPx ≤ topPx then (warpW, warpH)
  else (rightPx - leftPx, bottomPx - topPx)

/-- Grid information of CalculateGrid (detector.go:604-643). -/
structure GridInfo where
  dx : ℚ
  dy : ℚ
  grid : Nat → Nat → Pt

/-- CalculateGrid (detector.go:612-643): the whole warped image is the
board; spacing is one eighteenth of each edge and intersection (i, j)
sits at the truncated multiples of the spacings. -/
def calculateGrid (w h : ℤ) : GridInfo :=
  { dx := (w : ℚ) / 18
    dy := (h : ℚ) / 18
    grid := fun i j => (⌊(i : ℚ) * ((w : ℚ) / 18)⌋, ⌊(j : ℚ) * ((h : ℚ) / 18)⌋) }

/-- Scan order of the nearest-intersection search in DetectLastMoveCoord
(detector.go:1145-1154 and 1242-1251): outer loop over the first index
(column) 0..18, inner loop over the second (row) 0..18, the row-major
traversal of the 19x19 grid array. -/
def scanOrder : List (Nat × Nat) :=
  (List.range 19).flatMap fun c => (List.range 19).map fun r => (c, r)

/-- One step of the search loop: minDist starts at MaxFloat64 (modelled
by the none state, which every finite distance beats) and is replaced
exactly on a strictly smaller distance. -/
def scanStep (f : Nat × Nat → ℤ) (acc : (Nat × Nat) × Option ℤ) (p : Nat × Nat) :
    (Nat × Nat) × Option ℤ :=
  match acc.2 with
  | none => (p, some (f p))
  | some m => if f p < m then (p, some (f p)) else acc

/-- The nearest-intersection snap of DetectLastMoveCoord
(detector.go:1239-1251): exhaustive strict-less argmin of the distance
to the 361 intersections, initial best (0,0), initial minDist
MaxFloat64; returns the best (column, row) pair and the minimal squared
distance. -/
def snapToGrid (g : Nat → Nat → Pt) (c : Pt) : (Nat × Nat) × ℤ :=
  let r := scanOrder.foldl (scanStep fun ij => dsq c (g ij.1 ij.2)) ((0, 0), none)
  (r.1, r.2.getD 0)

/-- Clamp of the grid confidence to the unit interval
(detector.go:1255-1260). -/
def clamp01 (q : ℚ) : ℚ := if q < 0 then 0 else if q > 1 then 1 else q

/-- VerifyMoveNumber (detector.go:709-742).  The 90x90 ROI around the
stone center is clamped to the image; if either clamped side is below 50
the function fails, otherwise it returns true: the function never
consults any OCR service (its body says the real verification is left
for later), so the result depends on the ROI geometry alone. -/
def verifyMoveNumber (w h : ℤ) (c : Pt) : Bool × Option VErr :=
  let dx := min w (c.1 + 45) - max 0 (c.1 - 45)
  let dy := min h (c.2 + 45) - max 0 (c.2 - 45)
  if dx < 50 ∨ dy < 50 then (false, some VErr.roiTooSmall)
  else (true, none)

/-- CalculateFinalConfidence (detector.go:744-760): add 0.2 exactly when
the ocrVerified flag is set, then cap at 1. -/
def calculateFinalConfidence (gridConf : ℚ) (ocrVerified : Bool) : ℚ :=
  let conf := if ocrVerified then gridConf + 1/5 else gridConf
  if conf > 1 then 1 else conf

/-- Stone color resolved from the move-number parity
(detector.go:1283-1287): even move numbers are White, odd ones Black. -/
def parityColor (mv : ℤ) : String := if mv % 2 = 0 then "W" else "B"

/-- Marker hue families searched by the detection strategies. -/
inductive HueFamily where
  | red
  | blue
  deriving DecidableEq, Repr

/-- Hue family selected by FindMark (detector.go:219-241): blue marker
range for even move numbers (White), red for odd (Black). -/
def findMarkTargetHue (mv : ℤ) : HueFamily :=
  if mv % 2 = 0 then HueFamily.blue else HueFamily.red

/-- Hue family selected by FindMarkBGR (detector.go:310-340): the same
parity rule as FindMark. -/
def findMarkBGRTargetHue (mv : ℤ) : HueFamily :=
  if mv % 2 = 0 then HueFamily.blue else HueFamily.red

/-- Brightness class targeted by FindLastMoveDirect
(detector.go:499-501, 577-585): even move numbers look for a bright
(White) stone, odd for a dark (Black) one. -/
def findLastMoveDirectWantsBright (mv : ℤ) : Bool := mv % 2 = 0

/-- Detection result (detector.go:68-75), without the debug map. -/
structure DetResult where
  move : ℤ
  color : String
  x : Nat
  y : Nat
  confidence : ℚ
  deriving DecidableEq, Repr

/-- Image-dependent outcomes of the marker-detection strategies of one
call: FindMark, FindMarkBGR and FindLastMoveDirect either produce a
point or fail; FindStoneCenter always succeeds (both of its exits in
detector.go:416-496 return a nil error). -/
structure Oracle where
  findMark : Option Pt
  findMarkBGR : Option Pt
  findLastMoveDirect : Option Pt
  findStoneCenter : Pt → Pt

/-- Shared tail of the two success paths of DetectLastMoveCoord
(detector.go:1135-1203 and 1232-1300, two verbatim copies in the
source): snap the stone center to the nearest intersection, compute the
clamped distance confidence, run the move-number verification on the ROI
geometry and add its bonus, resolve the color from parity.  sqrtFn is
the square root on the minimal squared distance (see the file header). -/
def resolveFromStone (sqrtFn : ℤ → ℚ) (dims : ℤ × ℤ) (mv : ℤ) (c : Pt) :
    DetResult × Option VErr :=
  let grid := calculateGrid dims.1 dims.2
  let s := snapToGrid grid.grid c
  let maxDist := (1/2 : ℚ) * min grid.dx grid.dy
  let conf := clamp01 (1 - sqrtFn s.2 / maxDist)
  let verified := (verifyMoveNumber dims.1 dims.2 c).1
  let finalConf := calculateFinalConfidence conf verified
  ({ move := mv, color := parityColor mv, x := s.1.1, y := s.1.2,
     confidence := finalConf }, none)

/-- DetectLastMoveCoord (detector.go:1017-1301).  Control flow of the
source: resolution lookup (UnsupportedResolution on a miss, with an
all-zero result), warp (a warp failure returns the default result with a
nil error), the crop step, then the marker strategies in order FindMark,
FindMarkBGR, FindLastMoveDirect, each attempted only when the previous
one failed; when all three fail the call returns a zero-confidence
result at (0,0) with a nil error. -/
def detectLastMoveCoord (sqrtFn : ℤ → ℚ) (o : Oracle) (w h mv : ℤ) :
    DetResult × Option VErr :=
  let key := resKey w h
  match fixedBoardCorners.lookup key with
  | none =>
      ({ move := mv, color := "B", x := 0, y := 0, confidence := 0 },
       some VErr.unsupportedResolution)
  | some corners =>
      match warpBoard corners with
      | Except.error _ =>
          ({ move := mv, color := "B", x := 0, y := 0, confidence := 0 }, none)
      | Except.ok wp =>
          let dims := cropDims key wp.size wp.size
          match o.findMark with
          | some markPt => resolveFromStone sqrtFn dims mv (o.findStoneCenter markPt)
          | none =>
              match o.findMarkBGR with
              | some markPt =>
                  resolveFromStone sqrtFn dims mv (o.findStoneCenter markPt)
              | none =>
                  match o.findLastMoveDirect with
                  | some c => resolveFromStone sqrtFn dims mv c
                  | none =>
                      ({ move := mv, color := parityColor mv, x := 0, y := 0,
                         confidence := 0 }, none)

/-- Go math.Round: round half away from zero. -/
def goRound (q : ℚ) : ℤ := if q < 0 then -⌊-q + 1/2⌋ else ⌊q + 1/2⌋

/-- Body of the clustering loop of clusterLines (detector.go:1902-1916):
prev is the previously seen position, sum and count accumulate the
current cluster; a gap below the threshold extends the cluster,
otherwise the arithmetic mean of the cluster is emitted and a new
cluster starts. -/
def clusterLoop (t : ℚ) : ℚ → ℚ → Nat → List ℚ → List ℚ
  | _, sum, count, [] => [sum / (count : ℚ)]
  | prev, sum, count, x :: xs =>
      if x - prev < t then clusterLoop t x (sum + x) (count + 1) xs
      else sum / (count : ℚ) :: clusterLoop t x x 1 xs

/-- clusterLines (detector.go:1895-1918): sort the line positions, then
merge runs of positions whose successive differences are below
minSpacing into their arithmetic means. -/
def clusterLines (lines : List ℚ) (minSpacing : ℚ) : List ℚ :=
  match lines.mergeSort (fun a b => a ≤ b) with
  | [] => []
  | a :: rest => clusterLoop minSpacing a a 1 rest

/-- Successive differences of a position list (the spaces array of
completeGrid, detector.go:1937-1945). -/
def spacesOf : List ℚ → List ℚ
  | [] => []
  | [_] => []
  | a :: b :: rest => (b - a) :: spacesOf (b :: rest)

/-- Minimum space of completeGrid (detector.go:1938-1945); the running
minimum starts at 1000000. -/
def codeMinSpace (x : List ℚ) : ℚ := (spacesOf x).foldl min 1000000

/-- Canonical spacing of completeGrid (detector.go:1951-1969): the
arithmetic mean of the spaces not exceeding 1.6 times the minimum space,
the minimum space itself when none qualify. -/
def codeAvgSpace (x : List ℚ) : ℚ :=
  let spaces := spacesOf x
  let bound := codeMinSpace x * (8/5)
  let small := spaces.filter (fun s => s ≤ bound)
  if small.length ≠ 0 then small.sum / (small.length : ℚ) else codeMinSpace x

/-- Contribution of one gap to the completed grid
(detector.go:1974-1984): a gap within the bound keeps its right
endpoint; a larger gap is replaced by m uniform sub-steps from its left
endpoint, m the rounded ratio of the gap to the canonical spacing (the
k-th produced line is prev + k * s / m, and the m-th is the right
endpoint itself). -/
def gapBlock (avg bound prev b : ℚ) : List ℚ :=
  let s := b - prev
  if s ≤ bound then [b]
  else
    let m := (goRound (s / avg)).toNat
    (List.range m).map fun (k : Nat) => prev + ((k : ℚ) + 1) * s / (m : ℚ)

/-- Walk of the gap list of completeGrid (detector.go:1972-1984). -/
def fillAux (avg bound : ℚ) : ℚ → List ℚ → List ℚ
  | _, [] => []
  | prev, b :: rest => gapBlock avg bound prev b ++ fillAux avg bound b rest

/-- Interpolation pass of completeGrid: the first position followed by
the per-gap contributions (detector.go:1971-1984). -/
def fillGaps (avg bound : ℚ) : List ℚ → List ℚ
  | [] => []
  | a :: rest => a :: fillAux avg bound a rest

/-- Extension loop of completeGrid (detector.go:1994-2004): while the
list is short of the expected count, extend by one canonical spacing
after the last line, then (unless complete) by one before the first;
fuel bounds the iteration count and is never exhausted for the uses in
completeGrid. -/
def extendLoop (avg : ℚ) (expected : Nat) : Nat → List ℚ → List ℚ
  | 0, l => l
  | fuel + 1, l =>
      if l.length < expected then
        let l1 := l ++ [l.getLastD 0 + avg]
        if l1.length = expected then l1
        else extendLoop avg expected fuel ((l1.headD 0 - avg) :: l1)
      else l

/-- completeGrid (detector.go:1920-2007): truncate 21 or 20 cluster
positions down to the expected 19; fail (nil, here the empty list) on
fewer than two positions or a minimum spacing below 5; otherwise
interpolate over-large gaps, slice the middle when too many lines
result, and extend outward when too few. -/
def completeGrid (x0 : List ℚ) (expected : Nat) : List ℚ :=
  if x0.length < 2 then []
  else
    let x := if x0.length = expected + 2 then (x0.drop 1).take expected
             else if x0.length = expected + 1 then x0.take expected
             else x0
    if x.length = expected then x
    else
      let minSpace := codeMinSpace x
      if minSpace < 5 then []
      else
        let avg := codeAvgSpace x
        let bound := minSpace * (8/5)
        let result := fillGaps avg bound x
        if expected < result.length then
          let start := (result.length - expected) / 2
          (result.drop start).take expected
        else extendLoop avg expected expected result

/-- AutoCalibrateBoard (detector.go:1731-1893) after the image stages:
the Hough-detected horizontal and vertical line positions enter as
inputs, are clustered with threshold 10 and completed to 19 lines per
axis; the circle-alignment search (detector.go:1836-1876) only chooses a
translation applied to complete grids, modelled by the applyOffset flag
and the chosen offsets; the call fails with GridReconstructionFailed
unless both axes end with exactly 19 lines, and on success rounds the
positions to integers. -/
def autoCalibrateBoard (hLines vLines : List ℚ) (applyOffset : Bool) (ho vo : ℚ) :
    Except VErr (List ℤ × List ℤ) :=
  let hCentres := clusterLines hLines 10
  let vCentres := clusterLines vLines 10
  let hGrid0 := completeGrid hCentres 19
  let vGrid0 := completeGrid vCentres 19
  let offsetOn := hGrid0.length = 19 ∧ vGrid0.length = 19 ∧ applyOffset = true
  let hGrid := if offsetOn then hGrid0.map (fun v => v + ho) else hGrid0
  let vGrid := if offsetOn then vGrid0.map (fun v => v + vo) else vGrid0
  if hGrid.length ≠ 19 ∨ vGrid.length ≠ 19 then
    Except.error VErr.gridReconstructionFailed
  else Except.ok (hGrid.map goRound, vGrid.map goRound)

/-- Occurrence count of a rational in a list (evaluable form of
List.count). -/
def countQ (g : ℚ) : List ℚ → Nat
  | [] => 0
  | a :: rest => (if a = g then 1 else 0) + countQ g rest

/-- Modelled from the spec: the modal (most common) gap between
consecutive sorted cluster positions, the canonical grid spacing as the
specification describes it (detector.go computes codeAvgSpace instead;
this definition exists only to compare the two). -/
def specModalGap (gaps : List ℚ) : ℚ :=
  gaps.foldl (fun acc g => if countQ acc gaps < countQ g gaps then g else acc)
    (gaps.headD 0)

/-- Recursion form of the snap search once the MaxFloat64 initial state
has consumed the first scanned intersection: keep the current best and
replace it exactly on a strictly smaller distance. -/
def scanRun (f : Nat × Nat → ℤ) : Nat × Nat → List (Nat × Nat) → Nat × Nat
  | b, [] => b
  | b, p :: ps => if f p < f b then scanRun f p ps else scanRun f b ps

/-- Run decomposition of the clustering loop: the same recursion as
clusterLoop but carrying the current cluster as a list (prev is its last
element); used to state what clusterLines merges. -/
def runsLoop (t : ℚ) : List ℚ → ℚ → List ℚ → List (List ℚ)
  | run, _, [] => [run]
  | run, prev, x :: xs =>
      if x - prev < t then runsLoop t (run ++ [x]) x xs
      else run :: runsLoop t [x] x xs

/-- Concrete grid for witnesses: intersections 56 pixels apart. -/
def snapWitnessGrid : Nat → Nat → Pt := fun i j => (56 * (i : ℤ), 56 * (j : ℤ))

/-- Trivial square-root stand-in for witnesses. -/
def zeroSqrt : ℤ → ℚ := fun _ => 0

/-- Oracle on which every marker-detection strategy fails. -/
def emptyOracle : Oracle :=
  { findMark := none, findMarkBGR := none, findLastMoveDirect := none,
    findStoneCenter := id }

/-- Corner list of the single registered resolution. -/
def registeredCorners : List Pt := [(40, 536), (1160, 536), (1160, 1650), (40, 1650)]

/-- Five corner points (one too many) for the WarpBoard counterexample. -/
def fiveCorners : List Pt := [(0, 0), (9, 0), (9, 9), (0, 9), (4, 4)]

/-- Cluster positions whose gaps are two fives and eight tens: the modal
gap is 10 while the small-gap mean the code uses is 5. -/
def gridCx : List ℚ := [0, 5, 10, 20, 30, 40, 50, 60, 70, 80, 90]

set_option maxRecDepth 4000 in
lemma scanOrder_eq_cons : scanOrder = (0, 0) :: scanOrder.tail := by
  rw [scanOrder]
  rfl

lemma mem_scanOrder {p : Nat × Nat} : p ∈ scanOrder ↔ p.1 < 19 ∧ p.2 < 19 := by
  cases p with
  | mk a b =>
    simp only [scanOrder, List.mem_flatMap, List.mem_map, List.mem_range, Prod.mk.injEq]
    constructor
    · rintro ⟨c, hc, r, hr, rfl, rfl⟩
      exact ⟨hc, hr⟩
    · rintro ⟨ha, hb⟩
      exact ⟨a, ha, b, hb, rfl, rfl⟩

lemma foldl_scanStep_eq (f : Nat × Nat → ℤ) :
    ∀ (l : List (Nat × Nat)) (b : Nat × Nat),
      l.foldl (scanStep f) (b, some (f b)) = (scanRun f b l, some (f (scanRun f b l))) := by
  intro l
  induction l with
  | nil => intro b; rfl
  | cons p ps ih =>
      intro b
      by_cases h : f p < f b
      · rw [List.foldl_cons]
        have h1 : scanStep f (b, some (f b)) p = (p, some (f p)) := by
          simp [scanStep, h]
        have h2 : scanRun f b (p :: ps) = scanRun f p ps := by
          simp [scanRun, h]
        rw [h1, h2, ih p]
      · rw [List.foldl_cons]
        have h1 : scanStep f (b, some (f b)) p = (b, some (f b)) := by
          simp [scanStep, h]
        have h2 : scanRun f b (p :: ps) = scanRun f b ps := by
          simp [scanRun, h]
        rw [h1, h2, ih b]

lemma snapToGrid_eq (g : Nat → Nat → Pt) (c : Pt) :
    snapToGrid g c =
      (scanRun (fun ij => dsq c (g ij.1 ij.2)) (0, 0) scanOrder.tail,
       dsq c
         (g (scanRun (fun ij => dsq c (g ij.1 ij.2)) (0, 0) scanOrder.tail).1
            (scanRun (fun ij => dsq c (g ij.1 ij.2)) (0, 0) scanOrder.tail).2)) := by
  unfold snapToGrid
  rw [scanOrder_eq_cons]
  rw [List.foldl_cons]
  have h1 : scanStep (fun ij => dsq c (g ij.1 ij.2)) ((0, 0), none) (0, 0)
      = ((0, 0), some (dsq c (g 0 0))) := rfl
  rw [h1]
  rw [foldl_scanStep_eq (fun ij => dsq c (g ij.1 ij.2)) scanOrder.tail (0, 0)]
  simp only [List.tail_cons, Option.getD_some]

lemma scanRun_mem (f : Nat × Nat → ℤ) :
    ∀ (l : List (Nat × Nat)) (b : Nat × Nat), scanRun f b l ∈ b :: l := by
  intro l
  induction l with
  | nil => intro b; simp [scanRun]
  | cons p ps ih =>
      intro b
      by_cases h : f p < f b
      · rw [show scanRun f b (p :: ps) = scanRun f p ps from by simp [scanRun, h]]
        have := ih p
        simp only [List.mem_cons] at this ⊢
        tauto
      · rw [show scanRun f b (p :: ps) = scanRun f b ps from by simp [scanRun, h]]
        have := ih b
        simp only [List.mem_cons] at this ⊢
        tauto

lemma scanRun_le (f : Nat × Nat → ℤ) :
    ∀ (l : List (Nat × Nat)) (b : Nat × Nat), ∀ q ∈ b :: l, f (scanRun f b l) ≤ f q := by
  intro l
  induction l with
  | nil =>
      intro b q hq
      rcases List.mem_cons.mp hq with h1 | h1
      · rw [h1]; simp [scanRun]
      · simp at h1
  | cons p ps ih =>
      intro b q hq
      by_cases h : f p < f b
      · rw [show scanRun f b (p :: ps) = scanRun f p ps from by simp [scanRun, h]]
        rcases List.mem_cons.mp hq with h1 | h1
        · rw [h1]
          exact le_of_lt (lt_of_le_of_lt (ih p p (List.mem_cons_self _ _)) h)
        · exact ih p q h1
      · rw [show scanRun f b (p :: ps) = scanRun f b ps from by simp [scanRun, h]]
        rcases List.mem_cons.mp hq with h1 | h1
        · exact ih b q (h1 ▸ List.mem_cons_self _ _)
        · rcases List.mem_cons.mp h1 with h2 | h2
          · rw [h2]
            exact le_trans (ih b b (List.mem_cons_self _ _)) (le_of_not_lt h)
          · exact ih b q (List.mem_cons_of_mem _ h2)

lemma scanRun_first (f : Nat × Nat → ℤ) :
    ∀ (l : List (Nat × Nat)) (b : Nat × Nat),
      ∃ l1 l2, b :: l = l1 ++ scanRun f b l :: l2 ∧
        ∀ q ∈ l1, f (scanRun f b l) < f q := by
  intro l
  induction l with
  | nil =>
      intro b
      exact ⟨[], [], by simp [scanRun], by simp⟩
  | cons p ps ih =>
      intro b
      by_cases h : f p < f b
      · obtain ⟨l1, l2, heq, hlt⟩ := ih p
        rw [show scanRun f b (p :: ps) = scanRun f p ps from by simp [scanRun, h]]
        refine ⟨b :: l1, l2, ?_, ?_⟩
        · rw [List.cons_append, ← heq]
        · intro q hq
          rcases List.mem_cons.mp hq with h1 | h1
          · rw [h1]
            exact lt_of_le_of_lt (scanRun_le f ps p p (List.mem_cons_self _ _)) h
          · exact hlt q h1
      · obtain ⟨l1, l2, heq, hlt⟩ := ih b
        rw [show scanRun f b (p :: ps) = scanRun f b ps from by simp [scanRun, h]]
        rcases l1 with _ | ⟨a, l1t⟩
        · simp only [List.nil_append] at heq
          have hb : scanRun f b ps = b := ((List.cons.injEq _ _ _ _).mp heq).1.symm
          refine ⟨[], p :: ps, ?_, by simp⟩
          rw [hb, List.nil_append]
        · have h1 := (List.cons.injEq _ _ _ _).mp heq
          have hab : a = b := h1.1.symm
          have hps : ps = l1t ++ scanRun f b ps :: l2 := h1.2
          refine ⟨b :: p :: l1t, l2, ?_, ?_⟩
          · rw [List.cons_append, List.cons_append, ← hps]
          · intro q hq
            have hrb : f (scanRun f b ps) < f b := by
              have := hlt a (List.mem_cons_self _ _)
              rwa [hab] at this
            rcases List.mem_cons.mp hq with h2 | h2
            · rw [h2]; exact hrb
            · rcases List.mem_cons.mp h2 with h3 | h3
              · rw [h3]
                exact lt_of_lt_of_le hrb (le_of_not_lt h)
              · exact hlt q (List.mem_cons_of_mem _ h3)

/-- C1: Nearest-intersection snapping is total and deterministic: for
every point (in particular every point within the rectified image
bounds) and every grid, the snap of DetectLastMoveCoord returns exactly
one (column, row) pair with both components in [0,18]; the returned pair
minimizes the distance to the point over all 361 intersections
(distances compared through the squared distance, in which hypot is
strictly monotone); among the minimizers it is the first one found in
the row-major scan order of the grid array (every intersection scanned
before it is strictly farther); and two calls with the same point and
the same grid return the same pair. -/
theorem snapToGrid_total_deterministic (g : Nat → Nat → Pt) (c : Pt) :
    ((snapToGrid g c).1.1 < 19 ∧ (snapToGrid g c).1.2 < 19) ∧
    (snapToGrid g c).2 = dsq c (g (snapToGrid g c).1.1 (snapToGrid g c).1.2) ∧
    (∀ i j, i < 19 → j < 19 →
      dsq c (g (snapToGrid g c).1.1 (snapToGrid g c).1.2) ≤ dsq c (g i j)) ∧
    (∃ l1 l2, scanOrder = l1 ++ (snapToGrid g c).1 :: l2 ∧
      ∀ q ∈ l1,
        dsq c (g (snapToGrid g c).1.1 (snapToGrid g c).1.2) < dsq c (g q.1 q.2)) ∧
    (∀ (g2 : Nat → Nat → Pt) (c2 : Pt),
      (∀ i j, g2 i j = g i j) → c2 = c → snapToGrid g2 c2 = snapToGrid g c) := by
  have hsnap := snapToGrid_eq g c
  rw [hsnap]
  set f : Nat × Nat → ℤ := fun ij => dsq c (g ij.1 ij.2) with hf
  set r : Nat × Nat := scanRun f (0, 0) scanOrder.tail with hr
  have hmem : r ∈ scanOrder := by
    rw [scanOrder_eq_cons]
    exact scanRun_mem f scanOrder.tail (0, 0)
  refine ⟨?_, rfl, ?_, ?_, ?_⟩
  · exact mem_scanOrder.mp hmem
  · intro i j hi hj
    have hij : (i, j) ∈ scanOrder := mem_scanOrder.mpr ⟨hi, hj⟩
    rw [scanOrder_eq_cons] at hij
    exact scanRun_le f scanOrder.tail (0, 0) (i, j) hij
  · obtain ⟨l1, l2, heq, hlt⟩ := scanRun_first f scanOrder.tail (0, 0)
    refine ⟨l1, l2, ?_, ?_⟩
    · rw [scanOrder_eq_cons, heq]
    · intro q hq
      exact hlt q hq
  · intro g2 c2 hg hc
    have hgg : g2 = g := funext fun i => funext fun j => hg i j
    rw [hgg, hc, hsnap]

/-- Witness for C1: on a concrete uniform grid with the concrete point
(28, 29), the snap lands in bounds and is at least as close as the
intersection (3, 7). -/
theorem snapToGrid_total_deterministic_witness :
    ((snapToGrid snapWitnessGrid (28, 29)).1.1 < 19 ∧
      (snapToGrid snapWitnessGrid (28, 29)).1.2 < 19) ∧
    dsq (28, 29)
        (snapWitnessGrid (snapToGrid snapWitnessGrid (28, 29)).1.1
          (snapToGrid snapWitnessGrid (28, 29)).1.2)
      ≤ dsq (28, 29) (snapWitnessGrid 3 7) :=
  ⟨(snapToGrid_total_deterministic snapWitnessGrid (28, 29)).1,
   (snapToGrid_total_deterministic snapWitnessGrid (28, 29)).2.2.1 3 7
     (by decide) (by decide)⟩

/-- C2 (code bug evidence): at the concrete failing input, a 1024x1024
warped image with stone center (500, 500) and no OCR service anywhere in
sight, VerifyMoveNumber succeeds on ROI geometry alone and
CalculateFinalConfidence adds the 0.2 bonus: the bonus is not gated on
any independent move-number cross-check being available and agreeing
(VerifyMoveNumber consults nothing beyond the ROI size; its body leaves
the real OCR verification unimplemented). -/
theorem bonus_added_without_crosscheck :
    verifyMoveNumber 1024 1024 (500, 500) = (true, none) ∧
    calculateFinalConfidence (1/2) true = 7/10 ∧
    calculateFinalConfidence (1/2) true ≠ calculateFinalConfidence (1/2) false := by
  refine ⟨by decide, ?_, ?_⟩
  · norm_num [calculateFinalConfidence]
  · norm_num [calculateFinalConfidence]

/-- C10: the move-number verification is a function of the ROI geometry
alone: whenever the clamped 90x90 region of interest around the stone
center is at least 50 wide and 50 high, VerifyMoveNumber returns true
with no error (no OCR cross-check enters the computation), and therefore
CalculateFinalConfidence raises any grid confidence by the 0.2 bonus
(capped at 1), so every successful detection path through
resolveFromStone carries the bonus regardless of any cross-check. -/
theorem verifyMoveNumber_geometry_only (w h : ℤ) (c : Pt) (conf : ℚ)
    (sqrtFn : ℤ → ℚ) (mv : ℤ)
    (hx : 50 ≤ min w (c.1 + 45) - max 0 (c.1 - 45))
    (hy : 50 ≤ min h (c.2 + 45) - max 0 (c.2 - 45)) :
    verifyMoveNumber w h c = (true, none) ∧
    calculateFinalConfidence conf true = min 1 (conf + 1/5) ∧
    (resolveFromStone sqrtFn (w, h) mv c).1.confidence
      = min 1
          (clamp01 (1 - sqrtFn (snapToGrid (calculateGrid w h).grid c).2
              / ((1/2 : ℚ) * min ((w : ℚ)/18) ((h : ℚ)/18))) + 1/5) := by
  have h1 : verifyMoveNumber w h c = (true, none) := by
    unfold verifyMoveNumber
    have hx2 : ¬ (min w (c.1 + 45) - max 0 (c.1 - 45) < 50) := not_lt.mpr hx
    have hy2 : ¬ (min h (c.2 + 45) - max 0 (c.2 - 45) < 50) := not_lt.mpr hy
    simp [hx2, hy2]
  have h2 : ∀ q : ℚ, calculateFinalConfidence q true = min 1 (q + 1/5) := by
    intro q
    unfold calculateFinalConfidence
    simp only [if_true]
    by_cases hq : q + 1/5 > 1
    · simp only [if_pos hq]
      rw [min_eq_left (le_of_lt hq)]
    · simp only [if_neg hq]
      rw [min_eq_right (not_lt.mp hq)]
  refine ⟨h1, h2 conf, ?_⟩
  unfold resolveFromStone
  simp only [h1, calculateGrid]
  exact h2 _

/-- Witness for C10 at the image center of the warped board. -/
theorem verifyMoveNumber_geometry_only_witness :
    verifyMoveNumber 1024 1024 (512, 512) = (true, none) ∧
    calculateFinalConfidence (3/10) true = min 1 (3/10 + 1/5) :=
  ⟨(verifyMoveNumber_geometry_only 1024 1024 (512, 512) (3/10) zeroSqrt 7
      (by decide) (by decide)).1,
   (verifyMoveNumber_geometry_only 1024 1024 (512, 512) (3/10) zeroSqrt 7
      (by decide) (by decide)).2.1⟩

lemma lookup_registered :
    fixedBoardCorners.lookup (resKey 1200 2670) = some registeredCorners := by
  decide

lemma lookup_fixed_unique (k : String) (v : List Pt)
    (h : fixedBoardCorners.lookup k = some v) : v = registeredCorners := by
  simp only [fixedBoardCorners, List.lookup] at h
  split at h
  · rw [Option.some.injEq] at h
    rw [← h]; rfl
  · exact absurd h (by simp)

lemma warp_registered :
    warpBoard registeredCorners = Except.ok ⟨boardWarpSize, warpDst⟩ := rfl

lemma cropDims_registered :
    cropDims (resKey 1200 2670) boardWarpSize boardWarpSize = (1024, 1024) := by
  rw [show resKey 1200 2670 = "1200x2670" from by decide]
  unfold cropDims
  rw [show (fixedBoardCropPercent.lookup "1200x2670") = some ⟨0, 0, 0, 0⟩ from by
    simp [fixedBoardCropPercent, List.lookup]]
  norm_num [boardWarpSize]

/-- C5: the marker-detection strategies run in the fixed order FindMark,
FindMarkBGR, FindLastMoveDirect, each attempted exactly when the
previous one failed (in each equation the right-hand side does not
mention the outcomes of the later strategies, so a success stops the
chain); when all three fail the call returns the zero-confidence result
at (0,0) with a nil error instead of erroring the whole pipeline.
Stated at the registered resolution so that the chain is reached. -/
theorem fallback_chain_ordered (sqrtFn : ℤ → ℚ) (o : Oracle) (mv : ℤ) :
    (∀ p, o.findMark = some p →
      detectLastMoveCoord sqrtFn o 1200 2670 mv
        = resolveFromStone sqrtFn (1024, 1024) mv (o.findStoneCenter p)) ∧
    (∀ p, o.findMark = none → o.findMarkBGR = some p →
      detectLastMoveCoord sqrtFn o 1200 2670 mv
        = resolveFromStone sqrtFn (1024, 1024) mv (o.findStoneCenter p)) ∧
    (∀ c, o.findMark = none → o.findMarkBGR = none →
        o.findLastMoveDirect = some c →
      detectLastMoveCoord sqrtFn o 1200 2670 mv
        = resolveFromStone sqrtFn (1024, 1024) mv c) ∧
    (o.findMark = none → o.findMarkBGR = none → o.findLastMoveDirect = none →
      detectLastMoveCoord sqrtFn o 1200 2670 mv
        = ({ move := mv, color := parityColor mv, x := 0, y := 0,
             confidence := 0 }, none)) := by
  refine ⟨?_, ?_, ?_, ?_⟩
  · intro p hp
    unfold detectLastMoveCoord
    simp only []
    rw [lookup_registered]
    dsimp only
    rw [warp_registered]
    dsimp only
    rw [cropDims_registered, hp]
  · intro p hm hp
    unfold detectLastMoveCoord
    simp only []
    rw [lookup_registered]
    dsimp only
    rw [warp_registered]
    dsimp only
    rw [cropDims_registered, hm, hp]
  · intro c hm hb hc
    unfold detectLastMoveCoord
    simp only []
    rw [lookup_registered]
    dsimp only
    rw [warp_registered]
    dsimp only
    rw [cropDims_registered, hm, hb, hc]
  · intro hm hb hc
    unfold detectLastMoveCoord
    simp only []
    rw [lookup_registered]
    dsimp only
    rw [warp_registered]
    dsimp only
    rw [cropDims_registered, hm, hb, hc]

/-- Witness for C5: with the all-failing oracle the pipeline returns the
zero-confidence (0,0) result and a nil error. -/
theorem fallback_chain_ordered_witness :
    detectLastMoveCoord zeroSqrt emptyOracle 1200 2670 8
      = ({ move := 8, color := "W", x := 0, y := 0, confidence := 0 }, none) := by
  have h := (fallback_chain_ordered zeroSqrt emptyOracle 8).2.2.2 rfl rfl rfl
  rw [h]
  rfl

/-- C3: the resolved stone color is fully determined by the parity of
the move-number hint: odd hints resolve to Black and select the red hue
family in FindMark and FindMarkBGR and the dark-stone brightness class
in FindLastMoveDirect; even hints resolve to White and select blue and
the bright class; and every result the pipeline returns with a nil error
carries exactly the parity color. -/
theorem parity_determines_color (sqrtFn : ℤ → ℚ) (o : Oracle) (w h mv : ℤ) :
    (Odd mv → parityColor mv = "B" ∧ findMarkTargetHue mv = HueFamily.red ∧
      findMarkBGRTargetHue mv = HueFamily.red ∧
      findLastMoveDirectWantsBright mv = false) ∧
    (Even mv → parityColor mv = "W" ∧ findMarkTargetHue mv = HueFamily.blue ∧
      findMarkBGRTargetHue mv = HueFamily.blue ∧
      findLastMoveDirectWantsBright mv = true) ∧
    ((detectLastMoveCoord sqrtFn o w h mv).2 = none →
      (detectLastMoveCoord sqrtFn o w h mv).1.color = parityColor mv) := by
  refine ⟨?_, ?_, ?_⟩
  · intro hodd
    have h2 : mv % 2 = 1 := Int.odd_iff.mp hodd
    have h0 : ¬ mv % 2 = 0 := by omega
    simp [parityColor, findMarkTargetHue, findMarkBGRTargetHue,
      findLastMoveDirectWantsBright, h0]
  · intro heven
    have h2 : mv % 2 = 0 := Int.even_iff.mp heven
    simp [parityColor, findMarkTargetHue, findMarkBGRTargetHue,
      findLastMoveDirectWantsBright, h2]
  · intro herr
    unfold detectLastMoveCoord at herr ⊢
    simp only [] at herr ⊢
    cases hlk : List.lookup (resKey w h) fixedBoardCorners with
    | none =>
        rw [hlk] at herr
        dsimp only at herr
        exact absurd herr (by simp)
    | some v =>
        rw [hlk] at herr
        have hv : v = registeredCorners := lookup_fixed_unique _ _ hlk
        subst hv
        dsimp only at herr ⊢
        rw [warp_registered] at herr ⊢
        dsimp only at herr ⊢
        cases hm : o.findMark with
        | some p => simp [resolveFromStone]
        | none =>
            dsimp only at herr ⊢
            cases hb : o.findMarkBGR with
            | some p => simp [resolveFromStone]
            | none =>
                dsimp only at herr ⊢
                cases hd : o.findLastMoveDirect with
                | some c => simp [resolveFromStone]
                | none => rfl

/-- Witness for C3 with the odd hint 7 and the even hint 8. -/
theorem parity_determines_color_witness :
    (parityColor 7 = "B" ∧ findMarkTargetHue 7 = HueFamily.red ∧
      findMarkBGRTargetHue 7 = HueFamily.red ∧
      findLastMoveDirectWantsBright 7 = false) ∧
    (parityColor 8 = "W" ∧ findMarkTargetHue 8 = HueFamily.blue ∧
      findMarkBGRTargetHue 8 = HueFamily.blue ∧
      findLastMoveDirectWantsBright 8 = true) :=
  ⟨(parity_determines_color zeroSqrt emptyOracle 1200 2670 7).1
      (Int.odd_iff.mpr (by decide)),
   (parity_determines_color zeroSqrt emptyOracle 1200 2670 8).2.1
      (Int.even_iff.mpr (by decide))⟩

lemma extendLoop_length (avg : ℚ) (e : Nat) :
    ∀ (fuel : Nat) (l : List ℚ), l ≠ [] → l.length ≤ e →
      e ≤ l.length + 2 * fuel → (extendLoop avg e fuel l).length = e := by
  intro fuel
  induction fuel with
  | zero =>
      intro l _ hle hge
      simp only [extendLoop]
      omega
  | succ n ih =>
      intro l hne hle hge
      rw [extendLoop]
      split
      · simp only []
        split
        · next heq => exact heq
        · next hlt heq =>
            have hl1 : (l ++ [l.getLastD 0 + avg]).length = l.length + 1 := by simp
            rw [ih]
            · exact List.cons_ne_nil _ _
            · simp only [List.length_cons, hl1]
              omega
            · simp only [List.length_cons, hl1]
              omega
      · next hlt => omega

lemma fillGaps_ne_nil (avg bound : ℚ) (a : ℚ) (rest : List ℚ) :
    fillGaps avg bound (a :: rest) ≠ [] := by
  simp [fillGaps]

lemma completeGrid_nil_or_19 (x0 : List ℚ) :
    completeGrid x0 19 = [] ∨ (completeGrid x0 19).length = 19 := by
  unfold completeGrid
  by_cases h2 : x0.length < 2
  · simp only [if_pos h2]
    exact Or.inl trivial
  · simp only [if_neg h2]
    set x : List ℚ := if x0.length = 19 + 2 then (x0.drop 1).take 19
      else if x0.length = 19 + 1 then x0.take 19 else x0 with hx
    by_cases h19 : x.length = 19
    · simp only [if_pos h19]
      exact Or.inr h19
    · simp only [if_neg h19]
      by_cases hmin : codeMinSpace x < 5
      · simp only [if_pos hmin]
        exact Or.inl trivial
      · simp only [if_neg hmin]
        have hxlen : 2 ≤ x.length := by
          rw [hx]
          split
          · simp
            omega
          · split
            · simp
              omega
            · omega
        have hxne : x ≠ [] := by
          intro hcon
          rw [hcon] at hxlen
          simp at hxlen
        set result := fillGaps (codeAvgSpace x) (codeMinSpace x * (8/5)) x with hres
        have hresne : result ≠ [] := by
          rw [hres]
          obtain ⟨a, rest, hsplit⟩ := List.exists_cons_of_ne_nil hxne
          rw [hsplit]
          exact fillGaps_ne_nil _ _ _ _
        by_cases hbig : 19 < result.length
        · simp only [if_pos hbig]
          refine Or.inr ?_
          simp only [List.length_take, List.length_drop]
          omega
        · simp only [if_neg hbig]
          refine Or.inr ?_
          refine extendLoop_length _ 19 19 result hresne (by omega) ?_
          have h1 : 1 ≤ result.length := by
            rcases hr : result with _ | ⟨r, rs⟩
            · exact absurd hr hresne
            · simp
          omega

/-- C6: grid calibration is all-or-nothing: completeGrid either fails
(the nil list) or returns exactly the expected 19 line positions, and
AutoCalibrateBoard either fails with GridReconstructionFailed or
succeeds with exactly 19 horizontal and 19 vertical positions; whenever
either axis cannot be completed to 19 lines the error is returned and no
grid is produced. -/
theorem autoCalibrate_all_or_nothing (hL vL : List ℚ) (ao : Bool) (ho vo : ℚ) :
    (∀ x : List ℚ, completeGrid x 19 = [] ∨ (completeGrid x 19).length = 19) ∧
    (autoCalibrateBoard hL vL ao ho vo = Except.error VErr.gridReconstructionFailed ∨
      ∃ hg vg, autoCalibrateBoard hL vL ao ho vo = Except.ok (hg, vg) ∧
        hg.length = 19 ∧ vg.length = 19) ∧
    ((completeGrid (clusterLines hL 10) 19).length ≠ 19 ∨
        (completeGrid (clusterLines vL 10) 19).length ≠ 19 →
      autoCalibrateBoard hL vL ao ho vo
        = Except.error VErr.gridReconstructionFailed) := by
  refine ⟨completeGrid_nil_or_19, ?_, ?_⟩
  · unfold autoCalibrateBoard
    simp only []
    by_cases hoff : (completeGrid (clusterLines hL 10) 19).length = 19 ∧
        (completeGrid (clusterLines vL 10) 19).length = 19 ∧ ao = true
    · simp only [if_pos hoff]
      rw [if_neg (by
        push_neg
        refine ⟨by simp [hoff.1], by simp [hoff.2.1]⟩)]
      exact Or.inr ⟨_, _, rfl, by simp [hoff.1], by simp [hoff.2.1]⟩
    · simp only [if_neg hoff]
      by_cases hlen : (completeGrid (clusterLines hL 10) 19).length ≠ 19 ∨
          (completeGrid (clusterLines vL 10) 19).length ≠ 19
      · rw [if_pos hlen]
        exact Or.inl rfl
      · rw [if_neg hlen]
        push_neg at hlen
        exact Or.inr ⟨_, _, rfl, by simp [hlen.1], by simp [hlen.2]⟩
  · intro hbad
    unfold autoCalibrateBoard
    simp only []
    have hoff : ¬ ((completeGrid (clusterLines hL 10) 19).length = 19 ∧
        (completeGrid (clusterLines vL 10) 19).length = 19 ∧ ao = true) := by
      tauto
    simp only [if_neg hoff]
    rw [if_pos hbad]

/-- Witness for C6: with no detected lines at all the calibration fails
with GridReconstructionFailed. -/
theorem autoCalibrate_all_or_nothing_witness :
    autoCalibrateBoard [] [] false 0 0
      = Except.error VErr.gridReconstructionFailed :=
  (autoCalibrate_all_or_nothing [] [] false 0 0).2.2
    (Or.inl (by simp [clusterLines, completeGrid, List.mergeSort]))

lemma cxMin : codeMinSpace gridCx = 5 := by
  norm_num [codeMinSpace, gridCx, spacesOf]

lemma cxAvg : codeAvgSpace gridCx = 5 := by
  norm_num [codeAvgSpace, codeMinSpace, gridCx, spacesOf, List.filter, List.sum]

lemma cxFill : fillGaps 5 8 gridCx
    = [0, 5, 10, 15, 20, 25, 30, 35, 40, 45, 50, 55, 60, 65, 70, 75, 80, 85, 90] := by
  norm_num [fillGaps, fillAux, gapBlock, goRound, gridCx,
    show Int.toNat 2 = 2 from rfl,
    show List.range 2 = [0, 1] from rfl,
    show ((⌊(10:ℚ)/5 + 1/2⌋ : ℤ)) = 2 from by norm_num [Int.floor_eq_iff]]

lemma cxLen : gridCx.length = 11 := by simp [gridCx]

lemma cxComplete : completeGrid gridCx 19
    = [0, 5, 10, 15, 20, 25, 30, 35, 40, 45, 50, 55, 60, 65, 70, 75, 80, 85, 90] := by
  unfold completeGrid
  norm_num [cxLen, cxMin, cxAvg, cxFill, extendLoop]

/-- C7 counterexample: on the concrete cluster positions gridCx (gaps:
two fives then eight tens) the modal gap is 10 but the canonical spacing
the code uses is 5, the mean of the gaps not exceeding 1.6 times the
minimum gap; the gap of 10 between positions 10 and 20 does not exceed
1.6 times the modal spacing, so under the claim it would be left alone,
yet the code interpolates the extra line 15 inside it. -/
theorem canonical_spacing_not_modal :
    specModalGap (spacesOf gridCx) = 10 ∧
    codeAvgSpace gridCx = 5 ∧
    codeAvgSpace gridCx ≠ specModalGap (spacesOf gridCx) ∧
    (10 : ℚ) ≤ (8/5) * specModalGap (spacesOf gridCx) ∧
    (15 : ℚ) ∈ completeGrid gridCx 19 ∧
    (15 : ℚ) ∉ gridCx := by
  have hmodal : specModalGap (spacesOf gridCx) = 10 := by
    norm_num [specModalGap, spacesOf, gridCx, countQ, List.foldl]
  refine ⟨hmodal, cxAvg, ?_, ?_, ?_, ?_⟩
  · rw [hmodal, cxAvg]
    norm_num
  · rw [hmodal]
    norm_num
  · rw [cxComplete]
    norm_num
  · norm_num [gridCx]

lemma getLastD_eq_getD_length_sub_one :
    ∀ (l : List ℚ), l ≠ [] → l.getLastD 0 = l.getD (l.length - 1) 0 := by
  intro l
  induction l with
  | nil => intro h; exact absurd rfl h
  | cons a t ih =>
      intro _
      cases t with
      | nil => rfl
      | cons b t2 =>
          have h2 : (b :: t2 : List ℚ) ≠ [] := List.cons_ne_nil _ _
          have := ih h2
          simp only [List.getLastD_cons, List.length_cons] at this ⊢
          rw [this]
          rfl

lemma floor_five_halves : ((⌊(10:ℚ)/5 + 1/2⌋ : ℤ)) = 2 := by
  norm_num [Int.floor_eq_iff]

/-- C7 (amended): the canonical grid spacing used to interpolate missing
lines is the arithmetic mean of the gaps not exceeding 1.6 times the
minimum gap (the minimum gap itself when none qualify, as the definition
of codeAvgSpace states), and every observed gap exceeding 1.6 times the
minimum gap is filled with interpolated lines at uniform sub-intervals:
the gap contributes m = round(gap / canonical) lines, the k-th at
prev + k * gap / m, the last landing exactly on the far endpoint; a gap
within the bound is kept as-is. -/
theorem completeGrid_spacing_amended (x : List ℚ) (avg bound prev b : ℚ) (m : Nat) :
    (((spacesOf x).filter (fun s => s ≤ codeMinSpace x * (8/5))).length ≠ 0 →
      codeAvgSpace x
          * (((spacesOf x).filter (fun s => s ≤ codeMinSpace x * (8/5))).length : ℚ)
        = ((spacesOf x).filter (fun s => s ≤ codeMinSpace x * (8/5))).sum) ∧
    (b - prev ≤ bound → gapBlock avg bound prev b = [b]) ∧
    (bound < b - prev → m = (goRound ((b - prev) / avg)).toNat → 0 < m →
      (gapBlock avg bound prev b).length = m ∧
      (∀ k, k < m →
        (gapBlock avg bound prev b).getD k 0
          = prev + ((k : ℚ) + 1) * (b - prev) / (m : ℚ)) ∧
      (gapBlock avg bound prev b).getLastD 0 = b) := by
  refine ⟨?_, ?_, ?_⟩
  · intro hlen
    unfold codeAvgSpace
    simp only []
    rw [if_pos hlen]
    exact div_mul_cancel₀ _ (Nat.cast_ne_zero.mpr hlen)
  · intro hsmall
    unfold gapBlock
    simp only []
    rw [if_pos hsmall]
  · intro hbig hm hmpos
    have hnle : ¬ (b - prev ≤ bound) := not_le.mpr hbig
    have hblock : gapBlock avg bound prev b
        = (List.range m).map
            fun (k : Nat) => prev + ((k : ℚ) + 1) * (b - prev) / (m : ℚ) := by
      unfold gapBlock
      simp only []
      rw [if_neg hnle, ← hm]
    have hlen2 : (gapBlock avg bound prev b).length = m := by
      rw [hblock]
      simp
    refine ⟨hlen2, ?_, ?_⟩
    · intro k hk
      rw [hblock]
      rw [List.getD_eq_getElem?_getD, List.getElem?_map, List.getElem?_range hk]
      rfl
    · have hne : gapBlock avg bound prev b ≠ [] := by
        intro hc
        rw [hc] at hlen2
        have h0 : m = 0 := by simpa using hlen2.symm
        omega
      rw [getLastD_eq_getD_length_sub_one _ hne, hlen2, hblock]
      rw [List.getD_eq_getElem?_getD, List.getElem?_map,
        List.getElem?_range (by omega : m - 1 < m)]
      dsimp only [Option.map, Option.getD]
      have hcast : ((m - 1 : ℕ) : ℚ) + 1 = (m : ℚ) := by
        have h1 : (1 : ℕ) ≤ m := hmpos
        push_cast [h1]
        ring
      rw [hcast]
      have hm0 : (m : ℚ) ≠ 0 := Nat.cast_ne_zero.mpr (by omega)
      field_simp

/-- Witness for the amended C7 at concrete gaps of gridCx: the small gap
from 0 to 5 is kept and the large gap from 10 to 20 becomes two uniform
sub-intervals ending on 20. -/
theorem completeGrid_spacing_amended_witness :
    gapBlock 5 8 0 5 = [5] ∧
    (gapBlock 5 8 10 20).length = 2 ∧
    (gapBlock 5 8 10 20).getLastD 0 = 20 := by
  have hm2 : (2 : Nat) = (goRound (((20:ℚ) - 10) / 5)).toNat := by
    norm_num [goRound, floor_five_halves, show Int.toNat 2 = 2 from rfl]
  refine ⟨(completeGrid_spacing_amended gridCx 5 8 0 5 2).2.1 (by norm_num),
    ((completeGrid_spacing_amended gridCx 5 8 10 20 2).2.2
      (by norm_num) hm2 (by norm_num)).1,
    ((completeGrid_spacing_amended gridCx 5 8 10 20 2).2.2
      (by norm_num) hm2 (by norm_num)).2.2⟩

lemma list_sum_le_length_mul (c : ℚ) :
    ∀ (r : List ℚ), (∀ y ∈ r, y ≤ c) → r.sum ≤ (r.length : ℚ) * c := by
  intro r
  induction r with
  | nil => intro _; simp
  | cons a tl ih =>
      intro h
      have ha : a ≤ c := h a (List.mem_cons_self _ _)
      have ht := ih fun y hy => h y (List.mem_cons_of_mem _ hy)
      simp only [List.sum_cons, List.length_cons]
      push_cast
      have hr : ((tl.length : ℚ) + 1) * c = (tl.length : ℚ) * c + c := by ring
      linarith

lemma list_length_mul_le_sum (c : ℚ) :
    ∀ (r : List ℚ), (∀ y ∈ r, c ≤ y) → (r.length : ℚ) * c ≤ r.sum := by
  intro r
  induction r with
  | nil => intro _; simp
  | cons a tl ih =>
      intro h
      have ha : c ≤ a := h a (List.mem_cons_self _ _)
      have ht := ih fun y hy => h y (List.mem_cons_of_mem _ hy)
      simp only [List.sum_cons, List.length_cons]
      push_cast
      have hr : ((tl.length : ℚ) + 1) * c = (tl.length : ℚ) * c + c := by ring
      linarith

lemma chainLe_head_le (r : List ℚ) (hs : List.Chain' (fun a b : ℚ => a ≤ b) r) :
    ∀ y ∈ r, r.headD 0 ≤ y := by
  cases r with
  | nil => simp
  | cons a tl =>
      intro y hy
      simp only [List.headD_cons]
      rcases List.mem_cons.mp hy with h1 | h1
      · rw [h1]
      · exact List.rel_of_pairwise_cons (List.chain'_iff_pairwise.mp hs) h1

lemma getLastD_cons_cons (a b d : ℚ) (l : List ℚ) :
    (a :: b :: l).getLastD d = (b :: l).getLastD d := by
  simp [List.getLastD_cons]

lemma chainLe_le_getLastD :
    ∀ (r : List ℚ), List.Chain' (fun a b : ℚ => a ≤ b) r →
      ∀ y ∈ r, y ≤ r.getLastD 0 := by
  intro r
  induction r with
  | nil => simp
  | cons a tl ih =>
      intro hch y hy
      cases tl with
      | nil =>
          rcases List.mem_cons.mp hy with h1 | h1
          · rw [h1]; rfl
          · simp at h1
      | cons b tl2 =>
          rw [List.chain'_cons] at hch
          rw [getLastD_cons_cons]
          rcases List.mem_cons.mp hy with h1 | h1
          · have hb : b ≤ (b :: tl2).getLastD 0 :=
              ih hch.2 b (List.mem_cons_self _ _)
            rw [h1]
            exact le_trans hch.1 hb
          · exact ih hch.2 y h1

lemma headD_le_mean (r : List ℚ) (hne : r ≠ [])
    (hs : List.Chain' (fun a b : ℚ => a ≤ b) r) :
    r.headD 0 ≤ r.sum / (r.length : ℚ) := by
  have hlen : 0 < (r.length : ℚ) :=
    Nat.cast_pos.mpr (List.length_pos.mpr hne)
  rw [le_div_iff₀ hlen]
  have h := list_length_mul_le_sum (r.headD 0) r (chainLe_head_le r hs)
  linarith

lemma mean_le_getLastD (r : List ℚ) (hne : r ≠ [])
    (hs : List.Chain' (fun a b : ℚ => a ≤ b) r) :
    r.sum / (r.length : ℚ) ≤ r.getLastD 0 := by
  have hlen : 0 < (r.length : ℚ) :=
    Nat.cast_pos.mpr (List.length_pos.mpr hne)
  rw [div_le_iff₀ hlen]
  have h := list_sum_le_length_mul (r.getLastD 0) r (chainLe_le_getLastD r hs)
  linarith

lemma chain_mean_of_boundary (t : ℚ) :
    ∀ runs : List (List ℚ),
      (∀ r ∈ runs, r ≠ [] ∧ List.Chain' (fun a b : ℚ => a ≤ b) r) →
      List.Chain' (fun r1 r2 => r1.getLastD 0 + t ≤ r2.headD 0) runs →
      List.Chain' (fun a b : ℚ => a + t ≤ b)
        (runs.map fun r => r.sum / (r.length : ℚ)) := by
  intro runs
  induction runs with
  | nil => intro _ _; simp
  | cons r1 rs ih =>
      intro hall hchain
      cases rs with
      | nil => simp
      | cons r2 rs2 =>
          rw [List.chain'_cons] at hchain
          simp only [List.map_cons]
          rw [List.chain'_cons]
          have h1 := hall r1 (List.mem_cons_self _ _)
          have h2 := hall r2 (List.mem_cons_of_mem _ (List.mem_cons_self _ _))
          constructor
          · have hm1 := mean_le_getLastD r1 h1.1 h1.2
            have hm2 := headD_le_mean r2 h2.1 h2.2
            linarith [hchain.1]
          · have hrec := ih (fun r hr => hall r (List.mem_cons_of_mem _ hr)) hchain.2
            simpa using hrec

lemma runsLoop_join (t : ℚ) :
    ∀ (xs run : List ℚ) (prev : ℚ), (runsLoop t run prev xs).flatten = run ++ xs := by
  intro xs
  induction xs with
  | nil => intro run prev; simp [runsLoop]
  | cons x xs2 ih =>
      intro run prev
      unfold runsLoop
      by_cases h : x - prev < t
      · rw [if_pos h, ih]
        simp
      · rw [if_neg h]
        simp only [List.flatten_cons, ih]
        simp

lemma runsLoop_master (t : ℚ) :
    ∀ (xs run : List ℚ) (prev : ℚ),
      run ≠ [] → run.getLast? = some prev →
      List.Chain' (fun a b => b - a < t) run →
      List.Chain' (fun a b : ℚ => a ≤ b) run →
      List.Chain' (fun a b : ℚ => a ≤ b) (prev :: xs) →
      (∀ r ∈ runsLoop t run prev xs,
          r ≠ [] ∧ List.Chain' (fun a b => b - a < t) r ∧
          List.Chain' (fun a b : ℚ => a ≤ b) r) ∧
      List.Chain' (fun r1 r2 => r1.getLastD 0 + t ≤ r2.headD 0)
        (runsLoop t run prev xs) ∧
      runsLoop t run prev xs ≠ [] ∧
      ((runsLoop t run prev xs).headD []).headD 0 = run.headD 0 := by
  intro xs
  induction xs with
  | nil =>
      intro run prev h1 h2 h3 h4 _
      refine ⟨?_, ?_, ?_, ?_⟩
      · intro r hr
        rw [show runsLoop t run prev [] = [run] from rfl] at hr
        rw [List.mem_singleton] at hr
        rw [hr]
        exact ⟨h1, h3, h4⟩
      · rw [show runsLoop t run prev [] = [run] from rfl]
        simp
      · rw [show runsLoop t run prev [] = [run] from rfl]
        simp
      · rfl
  | cons x xs2 ih =>
      intro run prev h1 h2 h3 h4 h5
      rw [List.chain'_cons] at h5
      by_cases hlt : x - prev < t
      · rw [show runsLoop t run prev (x :: xs2)
            = if x - prev < t then runsLoop t (run ++ [x]) x xs2
              else run :: runsLoop t [x] x xs2 from rfl, if_pos hlt]
        have hd1 : List.Chain' (fun a b => b - a < t) (run ++ [x]) := by
          rw [List.chain'_append]
          refine ⟨h3, by simp, ?_⟩
          intro p hp y hy
          rw [h2, Option.mem_some_iff] at hp
          simp only [List.head?_cons, Option.mem_some_iff] at hy
          rw [← hp, ← hy]
          exact hlt
        have hd2 : List.Chain' (fun a b : ℚ => a ≤ b) (run ++ [x]) := by
          rw [List.chain'_append]
          refine ⟨h4, by simp, ?_⟩
          intro p hp y hy
          rw [h2, Option.mem_some_iff] at hp
          simp only [List.head?_cons, Option.mem_some_iff] at hy
          rw [← hp, ← hy]
          exact h5.1
        have hrec := ih (run ++ [x]) x (by simp)
          (by simp : (run ++ [x]).getLast? = some x) hd1 hd2 h5.2
        refine ⟨hrec.1, hrec.2.1, hrec.2.2.1, ?_⟩
        rw [hrec.2.2.2]
        cases run with
        | nil => exact absurd rfl h1
        | cons a tl => simp
      · rw [show runsLoop t run prev (x :: xs2)
            = if x - prev < t then runsLoop t (run ++ [x]) x xs2
              else run :: runsLoop t [x] x xs2 from rfl, if_neg hlt]
        have hrec := ih [x] x (by simp) (by simp) (by simp) (by simp) h5.2
        obtain ⟨ha, hb, hc, hd⟩ := hrec
        refine ⟨?_, ?_, by simp, by simp⟩
        · intro r hr
          rcases List.mem_cons.mp hr with hr1 | hr1
          · rw [hr1]
            exact ⟨h1, h3, h4⟩
          · exact ha r hr1
        · obtain ⟨r0, rs2, hr0⟩ := List.exists_cons_of_ne_nil hc
          rw [hr0]
          rw [List.chain'_cons]
          constructor
          · have hr0h : r0.headD 0 = x := by
              rw [hr0] at hd
              simpa using hd
            have hgl : run.getLastD 0 = prev := by
              rw [List.getLastD_eq_getLast?, h2]
              rfl
            rw [hgl, hr0h]
            have hxp := not_lt.mp hlt
            linarith
          · rw [hr0] at hb
            exact hb


lemma clusterLoop_eq_map (t : ℚ) :
    ∀ (xs run : List ℚ) (prev : ℚ), run ≠ [] →
      clusterLoop t prev run.sum run.length xs
        = (runsLoop t run prev xs).map fun r => r.sum / (r.length : ℚ) := by
  intro xs
  induction xs with
  | nil => intro run prev _; rfl
  | cons x xs2 ih =>
      intro run prev hne
      rw [show clusterLoop t prev run.sum run.length (x :: xs2)
          = if x - prev < t then
              clusterLoop t x (run.sum + x) (run.length + 1) xs2
            else run.sum / (run.length : ℚ) :: clusterLoop t x x 1 xs2 from rfl]
      rw [show runsLoop t run prev (x :: xs2)
          = if x - prev < t then runsLoop t (run ++ [x]) x xs2
            else run :: runsLoop t [x] x xs2 from rfl]
      by_cases h : x - prev < t
      · rw [if_pos h, if_pos h]
        have hsum : (run ++ [x]).sum = run.sum + x := by simp
        have hlen : (run ++ [x]).length = run.length + 1 := by simp
        rw [← hsum, ← hlen]
        exact ih (run ++ [x]) x (by simp)
      · rw [if_neg h, if_neg h]
        simp only [List.map_cons]
        congr 1
        have hx := ih [x] x (List.cons_ne_nil _ _)
        rw [show ([x] : List ℚ).sum = x from by simp,
          show ([x] : List ℚ).length = 1 from rfl] at hx
        exact hx

/-- C9: line clustering sorts the input positions and merges the maximal
runs of consecutive positions whose successive differences are below the
threshold into single representatives, each the arithmetic mean of its
run (adjacent runs are separated by at least the threshold, which is the
maximality of the merged runs); for every positive threshold the
resulting representative sequence is strictly increasing with
consecutive representatives at least the threshold apart. -/
theorem clusterLines_merges_runs (lines : List ℚ) (t : ℚ) (ht : 0 < t)
    (hne : lines ≠ []) :
    ∃ runs : List (List ℚ),
      runs.flatten = lines.mergeSort (fun a b => a ≤ b) ∧
      (∀ r ∈ runs, r ≠ [] ∧ List.Chain' (fun a b => b - a < t) r) ∧
      List.Chain' (fun r1 r2 => r1.getLastD 0 + t ≤ r2.headD 0) runs ∧
      clusterLines lines t = runs.map (fun r => r.sum / (r.length : ℚ)) ∧
      List.Chain' (fun a b : ℚ => a + t ≤ b) (clusterLines lines t) ∧
      List.Chain' (fun a b : ℚ => a < b) (clusterLines lines t) := by
  have hsne : lines.mergeSort (fun a b => a ≤ b) ≠ [] := by
    intro hcon
    have hlen := @List.length_mergeSort ℚ (fun a b : ℚ => decide (a ≤ b)) lines
    rw [hcon] at hlen
    simp only [List.length_nil] at hlen
    exact hne (List.length_eq_zero.mp hlen.symm)
  have hsorted : List.Chain' (fun a b : ℚ => a ≤ b)
      (lines.mergeSort (fun a b => a ≤ b)) := by
    rw [List.chain'_iff_pairwise]
    have hp := @List.sorted_mergeSort ℚ (fun a b : ℚ => decide (a ≤ b))
      (fun a b c hab hbc => by
        simp only [decide_eq_true_eq] at hab hbc ⊢
        exact le_trans hab hbc)
      (fun a b => by
        simp only [Bool.or_eq_true, decide_eq_true_eq]
        exact le_total a b)
      lines
    exact hp.imp fun hab => by simpa using hab
  obtain ⟨a, rest, hcons⟩ := List.exists_cons_of_ne_nil hsne
  have hchainS : List.Chain' (fun a b : ℚ => a ≤ b) (a :: rest) := by
    rw [← hcons]
    exact hsorted
  have master := runsLoop_master t rest [a] a (List.cons_ne_nil _ _) rfl
    (by simp) (by simp) hchainS
  have hmap : clusterLines lines t
      = (runsLoop t [a] a rest).map fun r => r.sum / (r.length : ℚ) := by
    have hcl : clusterLines lines t = clusterLoop t a a 1 rest := by
      unfold clusterLines
      rw [hcons]
    rw [hcl]
    have hx := clusterLoop_eq_map t rest [a] a (List.cons_ne_nil _ _)
    rw [show ([a] : List ℚ).sum = a from by simp,
      show ([a] : List ℚ).length = 1 from rfl] at hx
    exact hx
  have hchainMeans : List.Chain' (fun a b : ℚ => a + t ≤ b)
      (clusterLines lines t) := by
    rw [hmap]
    exact chain_mean_of_boundary t (runsLoop t [a] a rest)
      (fun r hr => ⟨(master.1 r hr).1, (master.1 r hr).2.2⟩) master.2.1
  refine ⟨runsLoop t [a] a rest, ?_, ?_, master.2.1, hmap, hchainMeans, ?_⟩
  · rw [runsLoop_join, hcons]
    rfl
  · intro r hr
    exact ⟨(master.1 r hr).1, (master.1 r hr).2.1⟩
  · exact hchainMeans.imp fun a b hab => by linarith

/-- Witness for C9 on the concrete input [20, 0, 1] with threshold 10:
the clustered representatives are strictly increasing. -/
theorem clusterLines_merges_runs_witness :
    List.Chain' (fun a b : ℚ => a < b) (clusterLines [20, 0, 1] 10) := by
  obtain ⟨runs, hrw⟩ := clusterLines_merges_runs [20, 0, 1] 10 (by norm_num)
    (List.cons_ne_nil _ _)
  exact hrw.2.2.2.2.2

/-- C8 counterexample: WarpBoard also fails when MORE than four corner
points are supplied (the source tests len(corners) != 4, not < 4): with
five points the call errors although the claimed condition (fewer than
four) is false. -/
theorem warpBoard_five_corners_fails :
    warpBoard fiveCorners = Except.error VErr.invalidGeometry ∧
    ¬ fiveCorners.length < 4 := by
  constructor
  · rfl
  · decide

/-- C8 (amended): perspective rectification fails with InvalidGeometry
exactly when the number of supplied corner points differs from four
(fewer or more); it performs no other validation of the quadrilateral,
and on success returns the fixed 1024-square whose four corners are the
images of the four supplied corners under the perspective transform
(mapping source corner i to destination corner i is the contract of
GetPerspectiveTransform). -/
theorem warpBoard_exact (corners : List Pt) :
    (corners.length ≠ 4 → warpBoard corners = Except.error VErr.invalidGeometry) ∧
    (corners.length = 4 →
      warpBoard corners
        = Except.ok ⟨1024, [(0, 0), (1024, 0), (1024, 1024), (0, 1024)]⟩) := by
  constructor
  · intro h
    simp [warpBoard, h]
  · intro h
    simp [warpBoard, h, boardWarpSize, warpDst]

/-- Witness for C8: a four-point list succeeds onto the fixed square and
a one-point list fails. -/
theorem warpBoard_exact_witness :
    warpBoard registeredCorners
      = Except.ok ⟨1024, [(0, 0), (1024, 0), (1024, 1024), (0, 1024)]⟩ ∧
    warpBoard [(0, 0)] = Except.error VErr.invalidGeometry :=
  ⟨(warpBoard_exact registeredCorners).2 (by decide),
   (warpBoard_exact [(0, 0)]).1 (by decide)⟩

/-- C4: when the dimension string of the input image is not a key of the
fixed resolution table, the pipeline returns the UnsupportedResolution
error together with the all-zero result (coordinate (0,0), confidence
0); the equation holds for every oracle and every square-root function,
so no rectification or detection outcome is consulted on this path. -/
theorem unsupported_resolution_short_circuits (sqrtFn : ℤ → ℚ) (o : Oracle)
    (w h mv : ℤ)
    (hmiss : fixedBoardCorners.lookup (resKey w h) = none) :
    detectLastMoveCoord sqrtFn o w h mv
      = ({ move := mv, color := "B", x := 0, y := 0, confidence := 0 },
         some VErr.unsupportedResolution) := by
  unfold detectLastMoveCoord
  simp only []
  rw [hmiss]

/-- Witness for C4 at the unregistered resolution 640x480. -/
theorem unsupported_resolution_witness :
    detectLastMoveCoord zeroSqrt emptyOracle 640 480 7
      = ({ move := 7, color := "B", x := 0, y := 0, confidence := 0 },
         some VErr.unsupportedResolution) :=
  unsupported_resolution_short_circuits zeroSqrt emptyOracle 640 480 7 (by decide)
